import Mathlib

/-!
# Verification of the nofx copy-trading signal pipeline

Shallow embedding of the `copytrading` observer (Hyperliquid provider's
`fetchAndEmit` poll cycle), the provider factory (`NewProvider`), and the
`trader` copy-trading configuration (`ParseCopyTradingConfig`,
`normalizeCopyTradingConfig`), together with proofs of the specified
properties.

Modelling conventions:
* Go `float64` quantities (sizes, prices, equity) are embedded as exact
  rationals `ℚ`; the verified properties are sign/structure properties that
  do not depend on rounding.
* Go maps (`map[string]float64`) are association lists with unique keys;
  reading an absent key yields the zero value, as in Go.
* `time.Now()` is modelled by an oracle `clock : Nat → Int` read at a
  per-cycle call counter: the i-th `time.Now()` call of a cycle returns
  `clock i` (successive readings need not coincide).
* The external market-data fallback `market.Get` is an oracle
  `String → Option ℚ`: `none` models a non-nil error, `some p` a response
  with `CurrentPrice = p`.
* HTTP fetches (`fetchFills`, `fetchState`) are modelled by passing the
  decoded results (`List Fill`, `HState`) as inputs to the cycle; numeric
  fields already parsed by `strconv.ParseFloat` (parse failure ⇒ 0) appear
  as their parsed values.
-/

namespace Nofx

/-- `SignalAction`: the closed set of normalized action tags
(`copytrading` package constants).  The Go type is a string; the empty
string `""` is represented by `Option SignalAction`'s `none` where it
occurs. -/
inductive SignalAction where
  | openLong
  | openShort
  | closeLong
  | closeShort
  | addLong
  | addShort
  | reduceLong
  | reduceShort
deriving DecidableEq, Repr

/-- `Signal`: the normalized structure describing a leader's position
change, with the fields of the Go struct (timestamps as clock readings). -/
structure Signal where
  symbol : String
  action : SignalAction
  notionalUSD : ℚ
  price : ℚ
  leaderEquity : ℚ
  leaderLeverage : Int
  marginMode : String
  timestamp : Int
  deltaSize : ℚ
  leaderPosBefore : ℚ
  leaderPosAfter : ℚ
deriving DecidableEq, Repr

/-- `deriveActionFromDelta` from the `copytrading` package: classifies a
non-flip position change by previous and current signed size; `none`
models the empty-string action. -/
def deriveActionFromDelta (prev curr : ℚ) : Option SignalAction :=
  let delta := curr - prev
  if delta = 0 then
    none
  else if curr > prev then
    if curr > 0 then some .addLong else some .reduceShort
  else if curr < prev then
    if curr < 0 then some .addShort else some .reduceLong
  else
    none

/-- Whitespace predicate of Go's `strings.TrimSpace`
(`unicode.IsSpace`, restricted to the ASCII range that the embedded
strings use). -/
def isSpaceGo (c : Char) : Bool :=
  c = ' ' || c = '\t' || c = '\n' || c = '\r' ||
    c = Char.ofNat 11 || c = Char.ofNat 12

/-- Go `strings.TrimSpace`, modelled over the character list. -/
def trimSpaceGo (s : String) : String :=
  ⟨(((s.data.dropWhile isSpaceGo).reverse).dropWhile isSpaceGo).reverse⟩

/-- Go `strings.ToUpper`, modelled over the character list. -/
def toUpperGo (s : String) : String :=
  ⟨s.data.map Char.toUpper⟩

/-- Go `strings.HasSuffix`, modelled over the character lists. -/
def hasSuffixGo (s suf : String) : Bool :=
  suf.data.isSuffixOf s.data

/-- `convertHyperliquidSymbol`: trim, reject empty, uppercase, append
`USDT` unless already suffixed. -/
def convertHyperliquidSymbol (coin : String) : String :=
  let c := trimSpaceGo coin
  if c = "" then ""
  else
    let c := toUpperGo c
    if hasSuffixGo c "USDT" then c else c ++ "USDT"

/-- Association-list embedding of Go's `map[string]float64`. -/
abbrev SMap := List (String × ℚ)

/-- Map read: Go returns the zero value `0` for an absent key. -/
def lookupD : SMap → String → ℚ
  | [], _ => 0
  | kv :: rest, k => if kv.1 = k then kv.2 else lookupD rest k

/-- Map assignment `m[k] = v`: overwrite the existing entry, else insert. -/
def setM : SMap → String → ℚ → SMap
  | [], k, v => [(k, v)]
  | kv :: rest, k, v => if kv.1 = k then (k, v) :: rest else kv :: setM rest k v

/-- `hyperliquidPositionMeta`: per-symbol position data decoded from
`clearinghouseState` (signed size, leverage, margin mode). -/
structure PosMeta where
  marginMode : String
  leverage : Int
  size : ℚ
deriving DecidableEq, Repr

/-- `hyperliquidState`: account equity plus per-symbol positions, with the
map embedded as an association list (iteration order arbitrary, captured by
quantifying over the list). -/
structure HState where
  accountValue : ℚ
  positions : List (String × PosMeta)
deriving DecidableEq, Repr

/-- `hyperliquidFill` after numeric decoding: `px` is `fill.price()`
(0 when `ParseFloat` fails). -/
structure Fill where
  coin : String
  px : ℚ
  time : Int
  tid : Int
deriving DecidableEq, Repr

/-- Mutable fields of `hyperliquidProvider` touched by a poll cycle. -/
structure ProviderState where
  lastTID : Int
  initialized : Bool
  lastPositions : SMap
  lastPrices : SMap
deriving DecidableEq, Repr

/-- State of a freshly constructed provider (`newHyperliquidProvider`):
zero cursor, uninitialized, empty snapshot and price cache. -/
def initProviderState : ProviderState :=
  { lastTID := 0, initialized := false, lastPositions := [], lastPrices := [] }

/-- The comparator of `sort.Slice` over fills: ascending `(time, tid)`. -/
def fillLE (a b : Fill) : Prop :=
  a.time < b.time ∨ (a.time = b.time ∧ a.tid ≤ b.tid)

instance : DecidablePred fun p : Fill × Fill => fillLE p.1 p.2 := by
  intro p
  unfold fillLE
  infer_instance

instance (a b : Fill) : Decidable (fillLE a b) := by
  unfold fillLE
  infer_instance

/-- Ordered insertion used to model the `sort.Slice` call. -/
def insertFill (f : Fill) : List Fill → List Fill
  | [] => [f]
  | g :: rest => if fillLE f g then f :: g :: rest else g :: insertFill f rest

/-- Sorting the fills by `(time, tid)` ascending. -/
def sortFills (fs : List Fill) : List Fill :=
  fs.foldr insertFill []

/-- The fill-ingest loop body: threads `lastTID` (advanced immediately on
empty-symbol fills), the running `maxTID`, and the price cache, exactly as
the Go loop mutates them. -/
def ingestLoop : List Fill → Int → Int → SMap → Int × Int × SMap
  | [], lastTID, maxTID, prices => (lastTID, maxTID, prices)
  | f :: rest, lastTID, maxTID, prices =>
    if f.tid ≤ lastTID then
      ingestLoop rest lastTID maxTID prices
    else
      let symbol := convertHyperliquidSymbol f.coin
      if symbol = "" then
        ingestLoop rest f.tid maxTID prices
      else
        let prices' := if f.px > 0 then setM prices symbol f.px else prices
        let maxTID' := if f.tid > maxTID then f.tid else maxTID
        ingestLoop rest lastTID maxTID' prices'

/-- Fill ingest phase of `fetchAndEmit` (price-oracle update and
high-water-mark cursoring; emits nothing). -/
def ingestFills (fills : List Fill) (p : ProviderState) : ProviderState :=
  let r := ingestLoop (sortFills fills) p.lastTID p.lastTID p.lastPrices
  let lastTID' := if r.2.1 > r.1 then r.2.1 else r.1
  { p with lastTID := lastTID', lastPrices := r.2.2 }

/-- Price resolution: prefer the cached price; if `≤ 0`, consult the
market-data fallback and cache a positive answer.  Returns the resolved
price (possibly still `≤ 0`) and the updated cache. -/
def resolvePrice (mkt : String → Option ℚ) (prices : SMap) (sym : String) :
    ℚ × SMap :=
  let price := lookupD prices sym
  if price ≤ 0 then
    match mkt sym with
    | some mp => if mp > 0 then (mp, setM prices sym mp) else (price, prices)
    | none => (price, prices)
  else
    (price, prices)

/-- Per-cycle immutable context: market fallback, wall clock, equity. -/
structure CycleCtx where
  mkt : String → Option ℚ
  clock : Nat → Int
  accountValue : ℚ

/-- Result of one diff/sweep stage: price cache, snapshot, clock-call
counter, emitted signals in order. -/
structure DiffRes where
  prices : SMap
  snap : SMap
  k : Nat
  sigs : List Signal
deriving Repr

/-- The body of the position-diff loop of `fetchAndEmit` for one fetched
position `(sym, meta)`: skip on zero delta, resolve a price (skip this
cycle without touching the snapshot when none), emit the two flip signals
or the single derived-action signal, and update the snapshot entry. -/
def processSymbol (ctx : CycleCtx) (sym : String) (meta : PosMeta)
    (prices : SMap) (snap : SMap) (k : Nat) : DiffRes :=
  let prev := lookupD snap sym
  let delta := meta.size - prev
  if delta = 0 then
    ⟨prices, snap, k, []⟩
  else
    let currSym := convertHyperliquidSymbol sym
    let pr := resolvePrice ctx.mkt prices currSym
    let price := pr.1
    let prices' := pr.2
    if price ≤ 0 then
      ⟨prices', snap, k, []⟩
    else if 0 < prev ∧ meta.size < 0 then
      ⟨prices', setM snap sym meta.size, k + 2,
        [{ symbol := currSym, action := .closeLong,
           notionalUSD := |prev| * price, price := price,
           leaderEquity := ctx.accountValue, leaderLeverage := meta.leverage,
           marginMode := meta.marginMode, timestamp := ctx.clock k,
           deltaSize := -prev, leaderPosBefore := prev, leaderPosAfter := 0 },
         { symbol := currSym, action := .openShort,
           notionalUSD := |meta.size| * price, price := price,
           leaderEquity := ctx.accountValue, leaderLeverage := meta.leverage,
           marginMode := meta.marginMode, timestamp := ctx.clock (k + 1),
           deltaSize := meta.size, leaderPosBefore := 0,
           leaderPosAfter := meta.size }]⟩
    else if prev < 0 ∧ 0 < meta.size then
      ⟨prices', setM snap sym meta.size, k + 2,
        [{ symbol := currSym, action := .closeShort,
           notionalUSD := |prev| * price, price := price,
           leaderEquity := ctx.accountValue, leaderLeverage := meta.leverage,
           marginMode := meta.marginMode, timestamp := ctx.clock k,
           deltaSize := -prev, leaderPosBefore := prev, leaderPosAfter := 0 },
         { symbol := currSym, action := .openLong,
           notionalUSD := |meta.size| * price, price := price,
           leaderEquity := ctx.accountValue, leaderLeverage := meta.leverage,
           marginMode := meta.marginMode, timestamp := ctx.clock (k + 1),
           deltaSize := meta.size, leaderPosBefore := 0,
           leaderPosAfter := meta.size }]⟩
    else
      match deriveActionFromDelta prev meta.size with
      | none => ⟨prices', setM snap sym meta.size, k, []⟩
      | some action =>
        ⟨prices', setM snap sym meta.size, k + 1,
          [{ symbol := currSym, action := action,
             notionalUSD := |delta| * price, price := price,
             leaderEquity := ctx.accountValue, leaderLeverage := meta.leverage,
             marginMode := meta.marginMode, timestamp := ctx.clock k,
             deltaSize := delta, leaderPosBefore := prev,
             leaderPosAfter := meta.size }]⟩

/-- The position-diff loop: iterate the fetched positions (in the order of
the given list, standing for Go's arbitrary map order), threading price
cache, snapshot and clock counter. -/
def diffPositions (ctx : CycleCtx) :
    List (String × PosMeta) → SMap → SMap → Nat → DiffRes
  | [], prices, snap, k => ⟨prices, snap, k, []⟩
  | (sym, meta) :: rest, prices, snap, k =>
    let r := processSymbol ctx sym meta prices snap k
    let rr := diffPositions ctx rest r.prices r.snap r.k
    ⟨rr.prices, rr.snap, rr.k, r.sigs ++ rr.sigs⟩

/-- Key-presence test on the fetched positions (`_, ok := positions[sym]`). -/
def hasKey (positions : List (String × PosMeta)) (sym : String) : Bool :=
  positions.any (fun kv => kv.1 == sym)

/-- Result of the sweep step for one snapshot entry: whether the entry is
kept, plus price cache, clock counter and emitted signals. -/
structure SweepRes where
  keep : Bool
  prices : SMap
  k : Nat
  sigs : List Signal
deriving Repr

/-- Body of the disappearance sweep for one snapshot entry `(sym, prev)`:
entries still present in the fetched positions are kept; otherwise the
entry is deleted, emitting a full close when `prev ≠ 0` and a price
resolves. -/
def sweepSymbol (ctx : CycleCtx) (inPositions : Bool) (sym : String)
    (prev : ℚ) (prices : SMap) (k : Nat) : SweepRes :=
  if inPositions then
    ⟨true, prices, k, []⟩
  else if prev = 0 then
    ⟨false, prices, k, []⟩
  else
    let currSym := convertHyperliquidSymbol sym
    let pr := resolvePrice ctx.mkt prices currSym
    if pr.1 ≤ 0 then
      ⟨false, pr.2, k, []⟩
    else
      ⟨false, pr.2, k + 1,
        [{ symbol := currSym,
           action := if prev < 0 then .closeShort else .closeLong,
           notionalUSD := |prev| * pr.1, price := pr.1,
           leaderEquity := ctx.accountValue, leaderLeverage := 0,
           marginMode := "", timestamp := ctx.clock k,
           deltaSize := -prev, leaderPosBefore := prev, leaderPosAfter := 0 }]⟩

/-- The disappearance sweep over the snapshot entries: rebuilds the
snapshot from the kept entries (modelling in-place deletion during map
iteration). -/
def sweepLoop (ctx : CycleCtx) (positions : List (String × PosMeta)) :
    SMap → SMap → Nat → DiffRes
  | [], prices, k => ⟨prices, [], k, []⟩
  | (sym, prev) :: rest, prices, k =>
    let r := sweepSymbol ctx (hasKey positions sym) sym prev prices k
    let rr := sweepLoop ctx positions rest r.prices r.k
    ⟨rr.prices, (if r.keep then [(sym, prev)] else []) ++ rr.snap, rr.k,
      r.sigs ++ rr.sigs⟩

/-- The cycle abort error: `fetchAndEmit`'s equity-invalid abort
(Go message `invalid Hyperliquid account value`; the OKX twin emits
`okx equity invalid`). -/
inductive PollError where
  | equityInvalid
deriving DecidableEq, Repr

/-- Outcome of one poll cycle: resulting provider state, emitted signals in
order, and the error, if any (`p` is mutated in place in Go, so an early
abort returns the state unchanged). -/
structure CycleOut where
  state : ProviderState
  sigs : List Signal
  err : Option PollError
deriving Repr

/-- First-cycle initialization: copy the fetched sizes into the snapshot. -/
def initSnapshot (positions : List (String × PosMeta)) (snap : SMap) : SMap :=
  positions.foldl (fun m kv => setM m kv.1 kv.2.size) snap

/-- `fetchAndEmit`: one poll cycle of the Hyperliquid observer.  Aborts on
non-positive equity before any mutation; ingests fills into the price
cache and cursor; on the first cycle only snapshots positions; otherwise
diffs positions against the snapshot and sweeps disappeared symbols. -/
def fetchAndEmit (mkt : String → Option ℚ) (clock : Nat → Int)
    (fills : List Fill) (st : HState) (p : ProviderState) : CycleOut :=
  if st.accountValue ≤ 0 then
    ⟨p, [], some .equityInvalid⟩
  else
    let p1 := ingestFills fills p
    if !p1.initialized then
      ⟨{ p1 with lastPositions := initSnapshot st.positions p1.lastPositions,
                 initialized := true }, [], none⟩
    else
      let ctx : CycleCtx := ⟨mkt, clock, st.accountValue⟩
      let d := diffPositions ctx st.positions p1.lastPrices p1.lastPositions 0
      let s := sweepLoop ctx st.positions d.snap d.prices d.k
      ⟨{ p1 with lastPositions := s.snap, lastPrices := s.prices },
        d.sigs ++ s.sigs, none⟩

/-- `CopyTradingConfig` (`trader` package): the proportional copy-trading
parameters configured from the front end. -/
structure CopyTradingConfig where
  followOpen : Bool
  followAdd : Bool
  followReduce : Bool
  followRatio : ℚ
  minAmount : ℚ
  maxAmount : ℚ
  syncLeverage : Bool
  syncMarginMode : Bool
deriving DecidableEq, Repr

/-- `DefaultCopyTradingConfig`: the default parameters. -/
def DefaultCopyTradingConfig : CopyTradingConfig :=
  { followOpen := true, followAdd := true, followReduce := true,
    followRatio := 100, minAmount := 0, maxAmount := 0,
    syncLeverage := true, syncMarginMode := true }

/-- `normalizeCopyTradingConfig`: reset a non-positive ratio to the
default, clamp negative bounds to zero, and re-enable all three follow
flags when every one of them is off. -/
def normalizeCopyTradingConfig (cfg : CopyTradingConfig) : CopyTradingConfig :=
  let d := DefaultCopyTradingConfig
  let c1 := if cfg.followRatio ≤ 0 then { cfg with followRatio := d.followRatio } else cfg
  let c2 := if c1.maxAmount < 0 then { c1 with maxAmount := 0 } else c1
  let c3 := if c2.minAmount < 0 then { c2 with minAmount := 0 } else c2
  if ¬c3.followOpen ∧ ¬c3.followAdd ∧ ¬c3.followReduce then
    { c3 with followOpen := d.followOpen, followAdd := d.followAdd,
              followReduce := d.followReduce }
  else
    c3

/-- `ParseCopyTradingConfig`: parse the JSON stored in the database,
returning the defaults when the input is blank or `json.Unmarshal` fails.
`unmarshal` is the oracle standing for `json.Unmarshal` into a value
pre-filled with the defaults: `none` models a syntax error (in which case
Go leaves the target untouched), `some cfg` a successful decode. -/
def ParseCopyTradingConfig (unmarshal : String → Option CopyTradingConfig)
    (raw : String) : CopyTradingConfig :=
  let cfg := DefaultCopyTradingConfig
  if trimSpaceGo raw = "" then
    cfg
  else
    match unmarshal raw with
    | none => cfg
    | some parsed => normalizeCopyTradingConfig parsed

/-- The injected HTTP client, reduced to the field the factory sets. -/
structure HTTPClient where
  timeout : Int
deriving DecidableEq, Repr

/-- `Config` (`copytrading` package): shared provider construction
parameters; durations in nanoseconds as in Go. -/
structure ProviderConfig where
  type : String
  identifier : String
  pollInterval : Int
  httpClient : Option HTTPClient
deriving DecidableEq, Repr

/-- One second in Go `time.Duration` units (nanoseconds). -/
def second : Int := 1000000000

/-- The two provider implementations as constructed values (the fields the
constructors store). -/
inductive Provider where
  | hyperliquid (user : String) (pollInterval : Int) (client : HTTPClient)
  | okx (uniqueName : String) (pollInterval : Int) (client : HTTPClient)
deriving DecidableEq, Repr

/-- `newHyperliquidProvider`: stores the trimmed wallet address. -/
def newHyperliquidProvider (user : String) (pollInterval : Int)
    (client : HTTPClient) : Provider :=
  .hyperliquid (trimSpaceGo user) pollInterval client

/-- `newOKXProvider`: stores the trimmed uniqueName. -/
def newOKXProvider (uniqueName : String) (pollInterval : Int)
    (client : HTTPClient) : Provider :=
  .okx (trimSpaceGo uniqueName) pollInterval client

/-- `NewProvider`: apply the defaults (10s HTTP timeout, 3s poll interval)
and dispatch on the configured type. -/
def NewProvider (cfg : ProviderConfig) : Except String Provider :=
  let client := match cfg.httpClient with
    | none => { timeout := 10 * second }
    | some c => c
  let interval := if cfg.pollInterval ≤ 0 then 3 * second else cfg.pollInterval
  if cfg.type = "hyperliquid_wallet" ∨ cfg.type = "hyperliquid" then
    .ok (newHyperliquidProvider cfg.identifier interval client)
  else if cfg.type = "okx_wallet" ∨ cfg.type = "okx" then
    .ok (newOKXProvider cfg.identifier interval client)
  else
    .error "unsupported signal source type"

/-- Poll interval stored in a constructed provider. -/
def providerInterval : Provider → Int
  | .hyperliquid _ i _ => i
  | .okx _ i _ => i

/-- HTTP client stored in a constructed provider. -/
def providerClient : Provider → HTTPClient
  | .hyperliquid _ _ c => c
  | .okx _ _ c => c

/-- The per-signal bookkeeping invariant: `leader_pos_after −
leader_pos_before = delta_size`, and the sign of `delta_size` agrees with
the action family (positive for `add_long`/`reduce_short`/`open_long`/
`close_short`, negative for `add_short`/`reduce_long`/`open_short`/
`close_long`). -/
def signalInv (s : Signal) : Prop :=
  s.leaderPosAfter - s.leaderPosBefore = s.deltaSize ∧
  (match s.action with
   | .addLong | .reduceShort | .openLong | .closeShort => 0 < s.deltaSize
   | .addShort | .reduceLong | .openShort | .closeLong => s.deltaSize < 0)

/-! ## Theorems -/

/-- Price resolution with a non-positive cache entry and no positive
fallback answer returns the cached (non-positive) value and leaves the
cache unchanged. -/
theorem resolvePrice_no_price (m : String → Option ℚ) (prices : SMap)
    (s : String) (hc : lookupD prices s ≤ 0)
    (hm : ∀ q, m s = some q → q ≤ 0) :
    resolvePrice m prices s = (lookupD prices s, prices) := by
  unfold resolvePrice
  rw [if_pos hc]
  cases h : m s
  · simp only [h]
  · simp only [h]
    rw [if_neg (not_lt.mpr (hm _ h))]

/-- `deriveActionFromDelta` on a genuine change classifies by the table
`new > prev ∧ new > 0 → add_long`, `new > prev ∧ new ≤ 0 → reduce_short`,
`new < prev ∧ new < 0 → add_short`, `new < prev ∧ new ≥ 0 → reduce_long`. -/
theorem deriveActionFromDelta_of_ne (prev curr : ℚ) (h : curr ≠ prev) :
    deriveActionFromDelta prev curr =
      some (if prev < curr then (if 0 < curr then .addLong else .reduceShort)
        else (if curr < 0 then .addShort else .reduceLong)) := by
  unfold deriveActionFromDelta
  rw [if_neg (sub_ne_zero.mpr h)]
  rcases h.lt_or_lt with hlt | hgt
  · rw [if_neg (by simpa using lt_asymm hlt), if_pos hlt,
      if_neg (lt_asymm hlt)]
    split_ifs <;> rfl
  · rw [if_pos (by simpa using hgt), if_pos hgt]
    split_ifs <;> rfl

/-- `processSymbol` on an unchanged size is a no-op. -/
theorem processSymbol_eq_zero (c : CycleCtx) (sym : String) (meta : PosMeta)
    (prices snap : SMap) (k : Nat)
    (h : meta.size - lookupD snap sym = 0) :
    processSymbol c sym meta prices snap k = ⟨prices, snap, k, []⟩ := by
  unfold processSymbol
  rw [if_pos h]

/-- `processSymbol` with a changed size but no resolvable price emits
nothing and leaves the snapshot alone (only the price cache may change). -/
theorem processSymbol_eq_noprice (c : CycleCtx) (sym : String)
    (meta : PosMeta) (prices snap : SMap) (k : Nat)
    (h : meta.size - lookupD snap sym ≠ 0)
    (hp : (resolvePrice c.mkt prices (convertHyperliquidSymbol sym)).1 ≤ 0) :
    processSymbol c sym meta prices snap k =
      ⟨(resolvePrice c.mkt prices (convertHyperliquidSymbol sym)).2,
        snap, k, []⟩ := by
  unfold processSymbol
  rw [if_neg h, if_pos hp]

/-- `processSymbol` on a long→short flip with a resolved price: close the
long, open the short, update the snapshot, consume two clock readings. -/
theorem processSymbol_eq_flipLong (c : CycleCtx) (sym : String)
    (meta : PosMeta) (prices snap : SMap) (k : Nat)
    (hp : ¬ (resolvePrice c.mkt prices (convertHyperliquidSymbol sym)).1 ≤ 0)
    (hf : 0 < lookupD snap sym ∧ meta.size < 0) :
    processSymbol c sym meta prices snap k =
      ⟨(resolvePrice c.mkt prices (convertHyperliquidSymbol sym)).2,
        setM snap sym meta.size, k + 2,
        [{ symbol := convertHyperliquidSymbol sym, action := .closeLong,
           notionalUSD := |lookupD snap sym| *
             (resolvePrice c.mkt prices (convertHyperliquidSymbol sym)).1,
           price := (resolvePrice c.mkt prices (convertHyperliquidSymbol sym)).1,
           leaderEquity := c.accountValue, leaderLeverage := meta.leverage,
           marginMode := meta.marginMode, timestamp := c.clock k,
           deltaSize := -(lookupD snap sym),
           leaderPosBefore := lookupD snap sym, leaderPosAfter := 0 },
         { symbol := convertHyperliquidSymbol sym, action := .openShort,
           notionalUSD := |meta.size| *
             (resolvePrice c.mkt prices (convertHyperliquidSymbol sym)).1,
           price := (resolvePrice c.mkt prices (convertHyperliquidSymbol sym)).1,
           leaderEquity := c.accountValue, leaderLeverage := meta.leverage,
           marginMode := meta.marginMode, timestamp := c.clock (k + 1),
           deltaSize := meta.size, leaderPosBefore := 0,
           leaderPosAfter := meta.size }]⟩ := by
  have hδ : meta.size - lookupD snap sym ≠ 0 :=
    sub_ne_zero.mpr (ne_of_lt (lt_trans hf.2 hf.1))
  unfold processSymbol
  rw [if_neg hδ, if_neg hp, if_pos hf]

/-- `processSymbol` on a short→long flip with a resolved price: close the
short, open the long, update the snapshot, consume two clock readings. -/
theorem processSymbol_eq_flipShort (c : CycleCtx) (sym : String)
    (meta : PosMeta) (prices snap : SMap) (k : Nat)
    (hp : ¬ (resolvePrice c.mkt prices (convertHyperliquidSymbol sym)).1 ≤ 0)
    (hf : lookupD snap sym < 0 ∧ 0 < meta.size) :
    processSymbol c sym meta prices snap k =
      ⟨(resolvePrice c.mkt prices (convertHyperliquidSymbol sym)).2,
        setM snap sym meta.size, k + 2,
        [{ symbol := convertHyperliquidSymbol sym, action := .closeShort,
           notionalUSD := |lookupD snap sym| *
             (resolvePrice c.mkt prices (convertHyperliquidSymbol sym)).1,
           price := (resolvePrice c.mkt prices (convertHyperliquidSymbol sym)).1,
           leaderEquity := c.accountValue, leaderLeverage := meta.leverage,
           marginMode := meta.marginMode, timestamp := c.clock k,
           deltaSize := -(lookupD snap sym),
           leaderPosBefore := lookupD snap sym, leaderPosAfter := 0 },
         { symbol := convertHyperliquidSymbol sym, action := .openLong,
           notionalUSD := |meta.size| *
             (resolvePrice c.mkt prices (convertHyperliquidSymbol sym)).1,
           price := (resolvePrice c.mkt prices (convertHyperliquidSymbol sym)).1,
           leaderEquity := c.accountValue, leaderLeverage := meta.leverage,
           marginMode := meta.marginMode, timestamp := c.clock (k + 1),
           deltaSize := meta.size, leaderPosBefore := 0,
           leaderPosAfter := meta.size }]⟩ := by
  have hδ : meta.size - lookupD snap sym ≠ 0 :=
    sub_ne_zero.mpr (ne_of_gt (lt_trans hf.1 hf.2))
  have hnl : ¬ (0 < lookupD snap sym ∧ meta.size < 0) := by
    intro hc
    exact absurd hf.1 (not_lt.mpr hc.1.le)
  unfold processSymbol
  rw [if_neg hδ, if_neg hp, if_neg hnl, if_pos hf]

/-- `processSymbol` on a non-flip change with a resolved price emits the
single derived-action signal and updates the snapshot entry. -/
theorem processSymbol_eq_nonflip (c : CycleCtx) (sym : String)
    (meta : PosMeta) (prices snap : SMap) (k : Nat)
    (h : meta.size ≠ lookupD snap sym)
    (hp : ¬ (resolvePrice c.mkt prices (convertHyperliquidSymbol sym)).1 ≤ 0)
    (hf1 : ¬ (0 < lookupD snap sym ∧ meta.size < 0))
    (hf2 : ¬ (lookupD snap sym < 0 ∧ 0 < meta.size)) :
    processSymbol c sym meta prices snap k =
      ⟨(resolvePrice c.mkt prices (convertHyperliquidSymbol sym)).2,
        setM snap sym meta.size, k + 1,
        [{ symbol := convertHyperliquidSymbol sym,
           action := if lookupD snap sym < meta.size then
               (if 0 < meta.size then .addLong else .reduceShort)
             else
               (if meta.size < 0 then .addShort else .reduceLong),
           notionalUSD := |meta.size - lookupD snap sym| *
             (resolvePrice c.mkt prices (convertHyperliquidSymbol sym)).1,
           price := (resolvePrice c.mkt prices (convertHyperliquidSymbol sym)).1,
           leaderEquity := c.accountValue, leaderLeverage := meta.leverage,
           marginMode := meta.marginMode, timestamp := c.clock k,
           deltaSize := meta.size - lookupD snap sym,
           leaderPosBefore := lookupD snap sym,
           leaderPosAfter := meta.size }]⟩ := by
  unfold processSymbol
  rw [if_neg (sub_ne_zero.mpr h), if_neg hp, if_neg hf1, if_neg hf2,
    deriveActionFromDelta_of_ne _ _ h]

/-- Every signal produced by the diff-loop body satisfies the
bookkeeping invariant. -/
theorem processSymbol_inv (c : CycleCtx) (sym : String) (meta : PosMeta)
    (prices snap : SMap) (k : Nat) (s : Signal)
    (hs : s ∈ (processSymbol c sym meta prices snap k).sigs) :
    signalInv s := by
  by_cases h0 : meta.size - lookupD snap sym = 0
  · rw [processSymbol_eq_zero c sym meta prices snap k h0] at hs
    exact absurd hs (List.not_mem_nil s)
  · by_cases hp :
      (resolvePrice c.mkt prices (convertHyperliquidSymbol sym)).1 ≤ 0
    · rw [processSymbol_eq_noprice c sym meta prices snap k h0 hp] at hs
      exact absurd hs (List.not_mem_nil s)
    · have hne : meta.size ≠ lookupD snap sym := fun he => h0 (by rw [he, sub_self])
      by_cases hf1 : 0 < lookupD snap sym ∧ meta.size < 0
      · rw [processSymbol_eq_flipLong c sym meta prices snap k hp hf1] at hs
        simp only [List.mem_cons, List.not_mem_nil, or_false] at hs
        rcases hs with rfl | rfl
        · exact ⟨zero_sub _, neg_lt_zero.mpr hf1.1⟩
        · exact ⟨sub_zero _, hf1.2⟩
      · by_cases hf2 : lookupD snap sym < 0 ∧ 0 < meta.size
        · rw [processSymbol_eq_flipShort c sym meta prices snap k hp hf2] at hs
          simp only [List.mem_cons, List.not_mem_nil, or_false] at hs
          rcases hs with rfl | rfl
          · exact ⟨zero_sub _, neg_pos.mpr hf2.1⟩
          · exact ⟨sub_zero _, hf2.2⟩
        · rw [processSymbol_eq_nonflip c sym meta prices snap k hne hp
            hf1 hf2] at hs
          simp only [List.mem_cons, List.not_mem_nil, or_false] at hs
          subst hs
          refine ⟨rfl, ?_⟩
          dsimp only
          by_cases hlt : lookupD snap sym < meta.size
          · rw [if_pos hlt]
            by_cases h2 : 0 < meta.size
            · rw [if_pos h2]
              exact sub_pos.mpr hlt
            · rw [if_neg h2]
              exact sub_pos.mpr hlt
          · rw [if_neg hlt]
            have hgt : meta.size < lookupD snap sym :=
              lt_of_le_of_ne (not_lt.mp hlt) hne
            by_cases h2 : meta.size < 0
            · rw [if_pos h2]
              exact sub_neg.mpr hgt
            · rw [if_neg h2]
              exact sub_neg.mpr hgt

/-- Every signal produced by the sweep body satisfies the bookkeeping
invariant. -/
theorem sweepSymbol_inv (c : CycleCtx) (b : Bool) (sym : String) (prev : ℚ)
    (prices : SMap) (k : Nat) (s : Signal)
    (hs : s ∈ (sweepSymbol c b sym prev prices k).sigs) :
    signalInv s := by
  unfold sweepSymbol at hs
  by_cases hb : b = true
  · rw [if_pos hb] at hs
    exact absurd hs (List.not_mem_nil s)
  · rw [if_neg hb] at hs
    by_cases h0 : prev = 0
    · rw [if_pos h0] at hs
      exact absurd hs (List.not_mem_nil s)
    · rw [if_neg h0] at hs
      by_cases hp :
        (resolvePrice c.mkt prices (convertHyperliquidSymbol sym)).1 ≤ 0
      · rw [if_pos hp] at hs
        exact absurd hs (List.not_mem_nil s)
      · rw [if_neg hp] at hs
        simp only [List.mem_cons, List.not_mem_nil, or_false] at hs
        subst hs
        refine ⟨zero_sub _, ?_⟩
        dsimp only
        by_cases hneg : prev < 0
        · rw [if_pos hneg]
          exact neg_pos.mpr hneg
        · rw [if_neg hneg]
          exact neg_lt_zero.mpr (lt_of_le_of_ne (not_lt.mp hneg) (Ne.symm h0))

/-- Every signal produced by the diff loop satisfies the bookkeeping
invariant. -/
theorem diffPositions_inv (c : CycleCtx)
    (positions : List (String × PosMeta)) :
    ∀ (prices snap : SMap) (k : Nat) (s : Signal),
      s ∈ (diffPositions c positions prices snap k).sigs → signalInv s := by
  induction positions with
  | nil =>
    intro prices snap k s hs
    exact absurd hs (List.not_mem_nil s)
  | cons e rest ih =>
    intro prices snap k s hs
    obtain ⟨sym, meta⟩ := e
    simp only [diffPositions, List.mem_append] at hs
    rcases hs with hs | hs
    · exact processSymbol_inv c sym meta prices snap k s hs
    · exact ih _ _ _ s hs

/-- Every signal produced by the disappearance sweep satisfies the
bookkeeping invariant. -/
theorem sweepLoop_inv (c : CycleCtx) (positions : List (String × PosMeta))
    (entries : SMap) :
    ∀ (prices : SMap) (k : Nat) (s : Signal),
      s ∈ (sweepLoop c positions entries prices k).sigs → signalInv s := by
  induction entries with
  | nil =>
    intro prices k s hs
    exact absurd hs (List.not_mem_nil s)
  | cons e rest ih =>
    intro prices k s hs
    obtain ⟨sym, prev⟩ := e
    simp only [sweepLoop, List.mem_append] at hs
    rcases hs with hs | hs
    · exact sweepSymbol_inv c (hasKey positions sym) sym prev prices k s hs
    · exact ih _ _ s hs

/-- C1: every signal emitted during a poll cycle satisfies
`leader_pos_after − leader_pos_before = delta_size`, with the sign of
`delta_size` agreeing with the action family (positive for
`add_long`/`reduce_short`/`open_long`/`close_short`, negative for
`add_short`/`reduce_long`/`open_short`/`close_long`). -/
theorem C1_signal_invariant (m : String → Option ℚ) (cl : Nat → Int)
    (fills : List Fill) (st : HState) (p : ProviderState) (s : Signal)
    (hs : s ∈ (fetchAndEmit m cl fills st p).sigs) :
    signalInv s := by
  simp only [fetchAndEmit] at hs
  by_cases he : st.accountValue ≤ 0
  · rw [if_pos he] at hs
    exact absurd hs (List.not_mem_nil s)
  · rw [if_neg he] at hs
    by_cases hi : (!(ingestFills fills p).initialized) = true
    · rw [if_pos hi] at hs
      exact absurd hs (List.not_mem_nil s)
    · rw [if_neg hi] at hs
      rw [List.mem_append] at hs
      rcases hs with hs | hs
      · exact diffPositions_inv _ _ _ _ _ s hs
      · exact sweepLoop_inv _ _ _ _ _ s hs

/-- Witness for C1: the `add_long` signal emitted at a concrete cycle
satisfies the invariant. -/
theorem C1_signal_invariant_witness :
    signalInv { symbol := "BTCUSDT", action := .addLong, notionalUSD := 5,
                price := 5, leaderEquity := 1, leaderLeverage := 3,
                marginMode := "cross", timestamp := 0, deltaSize := 1,
                leaderPosBefore := 1, leaderPosAfter := 2 } := by
  refine C1_signal_invariant (fun _ => none) (fun k => (k : Int)) []
    ⟨1, [("BTC", ⟨"cross", 3, 2⟩)]⟩ ⟨0, true, [("BTC", 1)], [("BTCUSDT", 5)]⟩
    _ ?_
  have e : (fetchAndEmit (fun _ => none) (fun k => (k : Int)) []
      ⟨1, [("BTC", ⟨"cross", 3, 2⟩)]⟩
      ⟨0, true, [("BTC", 1)], [("BTCUSDT", 5)]⟩).sigs =
      [{ symbol := "BTCUSDT", action := .addLong, notionalUSD := 5,
         price := 5, leaderEquity := 1, leaderLeverage := 3,
         marginMode := "cross", timestamp := 0, deltaSize := 1,
         leaderPosBefore := 1, leaderPosAfter := 2 }] := by
    with_unfolding_all rfl
  rw [e]
  exact List.mem_singleton.mpr rfl

/-- Reading back the key just assigned yields the assigned value. -/
theorem lookupD_setM_self (m : SMap) (k : String) (v : ℚ) :
    lookupD (setM m k v) k = v := by
  induction m with
  | nil => simp [setM, lookupD]
  | cons kv rest ih =>
    by_cases h : kv.1 = k
    · simp [setM, h, lookupD]
    · simp [setM, h, lookupD, ih]

/-- Assigning one key leaves the values of other keys unchanged. -/
theorem lookupD_setM_ne (m : SMap) (k x : String) (v : ℚ) (h : k ≠ x) :
    lookupD (setM m k v) x = lookupD m x := by
  induction m with
  | nil => simp [setM, lookupD, h]
  | cons kv rest ih =>
    by_cases hk : kv.1 = k
    · simp [setM, hk, lookupD, h]
    · simp [setM, hk, lookupD, ih]

/-- A key present after an assignment was the assigned key or was already
present. -/
theorem mem_keys_setM (m : SMap) (k : String) (v : ℚ) (x : String)
    (hx : x ∈ (setM m k v).map Prod.fst) :
    x = k ∨ x ∈ m.map Prod.fst := by
  induction m with
  | nil => simpa [setM] using hx
  | cons kv rest ih =>
    by_cases hk : kv.1 = k
    · simp only [setM, if_pos hk, List.map_cons, List.mem_cons] at hx
      rcases hx with hx | hx
      · exact Or.inl hx
      · exact Or.inr (by simp [hx])
    · simp only [setM, if_neg hk, List.map_cons, List.mem_cons] at hx
      rcases hx with hx | hx
      · exact Or.inr (by simp [hx])
      · rcases ih hx with hx | hx
        · exact Or.inl hx
        · exact Or.inr (by simp [hx])

/-- Snapshot initialization does not touch keys outside the copied
positions. -/
theorem lookupD_initSnapshot_not_mem (positions : List (String × PosMeta)) :
    ∀ (snap : SMap) (x : String), x ∉ positions.map Prod.fst →
      lookupD (initSnapshot positions snap) x = lookupD snap x := by
  induction positions with
  | nil => intro snap x _; rfl
  | cons e rest ih =>
    intro snap x h
    have hx : x ∉ rest.map Prod.fst := fun hm => h (by simp [hm])
    have hne : e.1 ≠ x := fun he => h (by simp [he])
    calc lookupD (initSnapshot rest (setM snap e.1 e.2.size)) x
        = lookupD (setM snap e.1 e.2.size) x := ih _ x hx
      _ = lookupD snap x := lookupD_setM_ne snap e.1 x e.2.size hne

/-- With duplicate-free keys, snapshot initialization stores each
position's size under its symbol. -/
theorem lookupD_initSnapshot_mem (positions : List (String × PosMeta)) :
    ∀ (snap : SMap) (sym : String) (meta : PosMeta),
      (positions.map Prod.fst).Nodup → (sym, meta) ∈ positions →
      lookupD (initSnapshot positions snap) sym = meta.size := by
  induction positions with
  | nil => intro _ _ _ _ h; exact absurd h (List.not_mem_nil _)
  | cons e rest ih =>
    intro snap sym meta hnd hmem
    obtain ⟨s1, m1⟩ := e
    have hnd0 : (s1 :: rest.map Prod.fst).Nodup := by simpa using hnd
    have hnd' := List.nodup_cons.mp hnd0
    rcases List.mem_cons.mp hmem with he | hmem'
    · rw [Prod.mk.injEq] at he
      obtain ⟨rfl, rfl⟩ := he
      calc lookupD (initSnapshot rest (setM snap sym meta.size)) sym
          = lookupD (setM snap sym meta.size) sym :=
            lookupD_initSnapshot_not_mem rest _ sym hnd'.1
        _ = meta.size := lookupD_setM_self snap sym meta.size
    · exact ih _ sym meta hnd'.2 hmem'

/-- A key of the initialized snapshot comes from the base snapshot or
from the copied positions. -/
theorem mem_keys_initSnapshot (positions : List (String × PosMeta)) :
    ∀ (snap : SMap) (x : String),
      x ∈ (initSnapshot positions snap).map Prod.fst →
      x ∈ snap.map Prod.fst ∨ x ∈ positions.map Prod.fst := by
  induction positions with
  | nil => intro snap x h; exact Or.inl h
  | cons e rest ih =>
    intro snap x h
    rcases ih _ x h with h' | h'
    · rcases mem_keys_setM snap e.1 e.2.size x h' with h'' | h''
      · exact Or.inr (by simp [h''])
      · exact Or.inl h''
    · exact Or.inr (by simp [h'])

/-- Key presence in the fetched positions decides `hasKey`. -/
theorem hasKey_eq_true (positions : List (String × PosMeta)) (x : String)
    (h : x ∈ positions.map Prod.fst) : hasKey positions x = true := by
  simp only [hasKey, List.any_eq_true]
  obtain ⟨kv, hm, he⟩ := List.mem_map.mp h
  exact ⟨kv, hm, by simp [he]⟩

/-- When every fetched position already matches the snapshot, the diff
loop changes nothing and emits nothing. -/
theorem diffPositions_unchanged (c : CycleCtx)
    (positions : List (String × PosMeta)) :
    ∀ (prices snap : SMap) (k : Nat),
      (∀ sym meta, (sym, meta) ∈ positions → lookupD snap sym = meta.size) →
      diffPositions c positions prices snap k = ⟨prices, snap, k, []⟩ := by
  induction positions with
  | nil => intro prices snap k _; rfl
  | cons e rest ih =>
    intro prices snap k hall
    obtain ⟨sym, meta⟩ := e
    have h0 : meta.size - lookupD snap sym = 0 := by
      rw [hall sym meta (by simp), sub_self]
    simp only [diffPositions]
    rw [processSymbol_eq_zero c sym meta prices snap k h0]
    dsimp only
    rw [ih prices snap k (fun a b hm => hall a b (List.mem_cons_of_mem _ hm))]
    rfl

/-- When every snapshot key is still present in the fetched positions,
the sweep keeps the snapshot intact and emits nothing. -/
theorem sweepLoop_keep_all (c : CycleCtx)
    (positions : List (String × PosMeta)) (entries : SMap) :
    ∀ (prices : SMap) (k : Nat),
      (∀ x, x ∈ entries.map Prod.fst → hasKey positions x = true) →
      sweepLoop c positions entries prices k = ⟨prices, entries, k, []⟩ := by
  induction entries with
  | nil => intro prices k _; rfl
  | cons e rest ih =>
    intro prices k hall
    obtain ⟨sym, prev⟩ := e
    have hk : hasKey positions sym = true := hall sym (by simp)
    simp only [sweepLoop]
    rw [hk, show sweepSymbol c true sym prev prices k =
      ⟨true, prices, k, []⟩ from rfl]
    dsimp only
    rw [ih prices k (fun x hx => hall x (by simp [hx]))]
    rfl

/-- An initialized observer whose snapshot already matches the fetched
positions emits nothing and keeps its snapshot across a whole cycle. -/
theorem fetchAndEmit_no_change (m : String → Option ℚ) (cl : Nat → Int)
    (fills : List Fill) (st : HState) (p : ProviderState)
    (heq : 0 < st.accountValue) (hinit : p.initialized = true)
    (hall : ∀ sym meta, (sym, meta) ∈ st.positions →
      lookupD p.lastPositions sym = meta.size)
    (hkeys : ∀ x, x ∈ p.lastPositions.map Prod.fst →
      hasKey st.positions x = true) :
    (fetchAndEmit m cl fills st p).sigs = [] ∧
    (fetchAndEmit m cl fills st p).state.lastPositions = p.lastPositions := by
  have hinit2 : (ingestFills fills p).initialized = true := hinit
  have hcond : ¬ ((!(ingestFills fills p).initialized) = true) := by
    rw [hinit2]
    simp
  simp only [fetchAndEmit]
  rw [if_neg (not_le.mpr heq), if_neg hcond,
    show (ingestFills fills p).lastPositions = p.lastPositions from rfl,
    diffPositions_unchanged _ st.positions _ p.lastPositions 0 hall]
  dsimp only
  rw [sweepLoop_keep_all _ st.positions p.lastPositions _ 0 hkeys]
  exact ⟨rfl, rfl⟩

/-- C3: from a fresh observer state, the first cycle with positions `P`
emits nothing, only copying `P` into the snapshot and setting
`initialized`; a second cycle fetching the identical `P` emits nothing
and leaves the snapshot unchanged. -/
theorem C3_init_then_idempotent (m m2 : String → Option ℚ)
    (cl cl2 : Nat → Int) (fills fills2 : List Fill) (st : HState)
    (hnd : (st.positions.map Prod.fst).Nodup)
    (heq : 0 < st.accountValue) :
    (fetchAndEmit m cl fills st initProviderState).sigs = [] ∧
    (fetchAndEmit m cl fills st initProviderState).state.initialized = true ∧
    (fetchAndEmit m cl fills st initProviderState).state.lastPositions =
      initSnapshot st.positions [] ∧
    (fetchAndEmit m2 cl2 fills2 st
      (fetchAndEmit m cl fills st initProviderState).state).sigs = [] ∧
    (fetchAndEmit m2 cl2 fills2 st
        (fetchAndEmit m cl fills st initProviderState).state).state.lastPositions =
      (fetchAndEmit m cl fills st initProviderState).state.lastPositions := by
  have h1 : fetchAndEmit m cl fills st initProviderState =
      ⟨{ lastTID := (ingestFills fills initProviderState).lastTID,
         initialized := true,
         lastPositions := initSnapshot st.positions [],
         lastPrices := (ingestFills fills initProviderState).lastPrices },
        [], none⟩ := by
    simp only [fetchAndEmit]
    rw [if_neg (not_le.mpr heq)]
    rfl
  have hall : ∀ sym meta, (sym, meta) ∈ st.positions →
      lookupD (initSnapshot st.positions []) sym = meta.size :=
    fun sym meta hm => lookupD_initSnapshot_mem st.positions [] sym meta hnd hm
  have hkeys : ∀ x, x ∈ (initSnapshot st.positions []).map Prod.fst →
      hasKey st.positions x = true := by
    intro x hx
    rcases mem_keys_initSnapshot st.positions [] x hx with h | h
    · exact absurd h (List.not_mem_nil x)
    · exact hasKey_eq_true st.positions x h
  rw [h1]
  have h2 := fetchAndEmit_no_change m2 cl2 fills2 st
    { lastTID := (ingestFills fills initProviderState).lastTID,
      initialized := true,
      lastPositions := initSnapshot st.positions [],
      lastPrices := (ingestFills fills initProviderState).lastPrices }
    heq rfl hall hkeys
  exact ⟨rfl, rfl, rfl, h2.1, h2.2⟩

/-- Witness for C3 at a concrete single-position state. -/
theorem C3_init_then_idempotent_witness :
    (fetchAndEmit (fun _ => none) (fun k => (k : Int)) []
      ⟨1, [("BTC", ⟨"cross", 3, 2⟩)]⟩ initProviderState).sigs = [] ∧
    (fetchAndEmit (fun _ => none) (fun k => (k : Int)) []
      ⟨1, [("BTC", ⟨"cross", 3, 2⟩)]⟩ initProviderState).state.initialized
      = true ∧
    (fetchAndEmit (fun _ => none) (fun k => (k : Int)) []
        ⟨1, [("BTC", ⟨"cross", 3, 2⟩)]⟩ initProviderState).state.lastPositions =
      initSnapshot [("BTC", ⟨"cross", 3, 2⟩)] [] ∧
    (fetchAndEmit (fun _ => none) (fun k => (k : Int)) []
      ⟨1, [("BTC", ⟨"cross", 3, 2⟩)]⟩
      (fetchAndEmit (fun _ => none) (fun k => (k : Int)) []
        ⟨1, [("BTC", ⟨"cross", 3, 2⟩)]⟩ initProviderState).state).sigs = [] ∧
    (fetchAndEmit (fun _ => none) (fun k => (k : Int)) []
        ⟨1, [("BTC", ⟨"cross", 3, 2⟩)]⟩
        (fetchAndEmit (fun _ => none) (fun k => (k : Int)) []
          ⟨1, [("BTC", ⟨"cross", 3, 2⟩)]⟩
          initProviderState).state).state.lastPositions =
      (fetchAndEmit (fun _ => none) (fun k => (k : Int)) []
        ⟨1, [("BTC", ⟨"cross", 3, 2⟩)]⟩ initProviderState).state.lastPositions :=
  C3_init_then_idempotent (fun _ => none) (fun _ => none)
    (fun k => (k : Int)) (fun k => (k : Int)) [] []
    ⟨1, [("BTC", ⟨"cross", 3, 2⟩)]⟩ (by decide) (by decide)

/-- C2 counterexample: at a concrete long→short flip (prev = 2, new = −1,
cached price 5) the diff loop emits the close and the open with the
timestamps of two distinct consecutive clock readings (0 and 1): the
code takes a separate wall-clock reading per signal, so "both signals
carry the same timestamp" fails as stated. -/
theorem C2_flip_counterexample :
    ((fetchAndEmit (fun _ => none) (fun k => (k : Int)) []
        ⟨1, [("BTC", ⟨"cross", 3, -1⟩)]⟩
        ⟨0, true, [("BTC", 2)], [("BTCUSDT", 5)]⟩).sigs.map
      (fun s => (s.action, s.timestamp))) =
        [(.closeLong, 0), (.openShort, 1)] ∧ (0 : Int) ≠ 1 := by
  constructor
  · with_unfolding_all rfl
  · decide

/-- C2 (amended): on a direction flip with a resolved price the observer
emits exactly two signals in order — first the close of the old direction
with notional `|prev| * price`, `delta_size = -prev`, `pos_before = prev`,
`pos_after = 0`, then the open of the opposite direction with notional
`|new| * price`, `delta_size = new`, `pos_before = 0`, `pos_after = new` —
and the two signals carry the timestamps of two consecutive clock
readings taken in that order (equal only when those readings coincide). -/
theorem C2_flip_close_then_open (c : CycleCtx) (sym : String)
    (meta : PosMeta) (prices snap : SMap) (k : Nat)
    (hflip : (0 < lookupD snap sym ∧ meta.size < 0) ∨
      (lookupD snap sym < 0 ∧ 0 < meta.size))
    (hp : 0 < (resolvePrice c.mkt prices (convertHyperliquidSymbol sym)).1) :
    processSymbol c sym meta prices snap k =
      ⟨(resolvePrice c.mkt prices (convertHyperliquidSymbol sym)).2,
        setM snap sym meta.size, k + 2,
        [{ symbol := convertHyperliquidSymbol sym,
           action := if 0 < lookupD snap sym then .closeLong else .closeShort,
           notionalUSD := |lookupD snap sym| *
             (resolvePrice c.mkt prices (convertHyperliquidSymbol sym)).1,
           price := (resolvePrice c.mkt prices (convertHyperliquidSymbol sym)).1,
           leaderEquity := c.accountValue, leaderLeverage := meta.leverage,
           marginMode := meta.marginMode, timestamp := c.clock k,
           deltaSize := -(lookupD snap sym),
           leaderPosBefore := lookupD snap sym, leaderPosAfter := 0 },
         { symbol := convertHyperliquidSymbol sym,
           action := if 0 < lookupD snap sym then .openShort else .openLong,
           notionalUSD := |meta.size| *
             (resolvePrice c.mkt prices (convertHyperliquidSymbol sym)).1,
           price := (resolvePrice c.mkt prices (convertHyperliquidSymbol sym)).1,
           leaderEquity := c.accountValue, leaderLeverage := meta.leverage,
           marginMode := meta.marginMode, timestamp := c.clock (k + 1),
           deltaSize := meta.size, leaderPosBefore := 0,
           leaderPosAfter := meta.size }]⟩ := by
  rcases hflip with hf | hf
  · rw [processSymbol_eq_flipLong c sym meta prices snap k (not_le.mpr hp) hf,
      if_pos hf.1, if_pos hf.1]
  · rw [processSymbol_eq_flipShort c sym meta prices snap k (not_le.mpr hp) hf,
      if_neg (lt_asymm hf.1), if_neg (lt_asymm hf.1)]

/-- Witness for the amended C2 on a concrete long→short flip. -/
theorem C2_flip_close_then_open_witness :
    processSymbol ⟨fun _ => none, fun k => (k : Int), 1⟩ "BTC"
        ⟨"cross", 3, -1⟩ [("BTCUSDT", 5)] [("BTC", 2)] 0 =
      ⟨[("BTCUSDT", 5)], [("BTC", -1)], 2,
        [{ symbol := "BTCUSDT", action := .closeLong, notionalUSD := 10,
           price := 5, leaderEquity := 1, leaderLeverage := 3,
           marginMode := "cross", timestamp := 0, deltaSize := -2,
           leaderPosBefore := 2, leaderPosAfter := 0 },
         { symbol := "BTCUSDT", action := .openShort, notionalUSD := 5,
           price := 5, leaderEquity := 1, leaderLeverage := 3,
           marginMode := "cross", timestamp := 1, deltaSize := -1,
           leaderPosBefore := 0, leaderPosAfter := -1 }]⟩ := by
  rw [C2_flip_close_then_open ⟨fun _ => none, fun k => (k : Int), 1⟩ "BTC"
    ⟨"cross", 3, -1⟩ [("BTCUSDT", 5)] [("BTC", 2)] 0
    (Or.inl ⟨by decide, by decide⟩) (by decide)]
  with_unfolding_all rfl

/-- C4: on a non-flip change with a resolved price the observer emits
exactly one signal, classified `add_long`/`reduce_short`/`add_short`/
`reduce_long` by the sign table, with `notional_usd = |new − prev| *
price`. -/
theorem C4_nonflip_single_signal (c : CycleCtx) (sym : String)
    (meta : PosMeta) (prices snap : SMap) (k : Nat)
    (h : meta.size ≠ lookupD snap sym)
    (hf1 : ¬ (0 < lookupD snap sym ∧ meta.size < 0))
    (hf2 : ¬ (lookupD snap sym < 0 ∧ 0 < meta.size))
    (hp : 0 < (resolvePrice c.mkt prices (convertHyperliquidSymbol sym)).1) :
    (processSymbol c sym meta prices snap k).sigs =
      [{ symbol := convertHyperliquidSymbol sym,
         action := if lookupD snap sym < meta.size then
             (if 0 < meta.size then .addLong else .reduceShort)
           else
             (if meta.size < 0 then .addShort else .reduceLong),
         notionalUSD := |meta.size - lookupD snap sym| *
           (resolvePrice c.mkt prices (convertHyperliquidSymbol sym)).1,
         price := (resolvePrice c.mkt prices (convertHyperliquidSymbol sym)).1,
         leaderEquity := c.accountValue, leaderLeverage := meta.leverage,
         marginMode := meta.marginMode, timestamp := c.clock k,
         deltaSize := meta.size - lookupD snap sym,
         leaderPosBefore := lookupD snap sym,
         leaderPosAfter := meta.size }] := by
  rw [processSymbol_eq_nonflip c sym meta prices snap k h (not_le.mpr hp)
    hf1 hf2]

/-- Witness for C4 on a concrete long increase (prev = 1, new = 2,
price 5): one `add_long` with notional 5. -/
theorem C4_nonflip_single_signal_witness :
    (processSymbol ⟨fun _ => none, fun k => (k : Int), 1⟩ "BTC"
        ⟨"cross", 3, 2⟩ [("BTCUSDT", 5)] [("BTC", 1)] 0).sigs =
      [{ symbol := "BTCUSDT", action := .addLong, notionalUSD := 5,
         price := 5, leaderEquity := 1, leaderLeverage := 3,
         marginMode := "cross", timestamp := 0, deltaSize := 1,
         leaderPosBefore := 1, leaderPosAfter := 2 }] := by
  rw [C4_nonflip_single_signal ⟨fun _ => none, fun k => (k : Int), 1⟩ "BTC"
    ⟨"cross", 3, 2⟩ [("BTCUSDT", 5)] [("BTC", 1)] 0 (by decide)
    (by decide) (by decide) (by decide)]
  with_unfolding_all rfl

/-- C5: when a symbol's size changed but neither the price cache nor the
market-data fallback yields a positive price, the observer emits no
signal for it and leaves its snapshot (and the price cache) untouched. -/
theorem C5_missing_price_skips (c : CycleCtx) (sym : String)
    (meta : PosMeta) (prices snap : SMap) (k : Nat)
    (h : meta.size ≠ lookupD snap sym)
    (hc : lookupD prices (convertHyperliquidSymbol sym) ≤ 0)
    (hm : ∀ q, c.mkt (convertHyperliquidSymbol sym) = some q → q ≤ 0) :
    (processSymbol c sym meta prices snap k).sigs = [] ∧
    (processSymbol c sym meta prices snap k).snap = snap ∧
    (processSymbol c sym meta prices snap k).prices = prices := by
  have hr := resolvePrice_no_price c.mkt prices
    (convertHyperliquidSymbol sym) hc hm
  have hp : (resolvePrice c.mkt prices (convertHyperliquidSymbol sym)).1 ≤ 0 := by
    rw [hr]
    exact hc
  rw [processSymbol_eq_noprice c sym meta prices snap k
    (sub_ne_zero.mpr h) hp]
  refine ⟨rfl, rfl, ?_⟩
  rw [hr]

/-- Witness for C5: a size change with an empty price cache and erroring
fallback emits nothing and keeps the snapshot entry. -/
theorem C5_missing_price_skips_witness :
    (processSymbol ⟨fun _ => none, fun k => (k : Int), 1⟩ "BTC"
        ⟨"cross", 3, 2⟩ [] [("BTC", 1)] 0).sigs = [] ∧
    (processSymbol ⟨fun _ => none, fun k => (k : Int), 1⟩ "BTC"
        ⟨"cross", 3, 2⟩ [] [("BTC", 1)] 0).snap = [("BTC", 1)] ∧
    (processSymbol ⟨fun _ => none, fun k => (k : Int), 1⟩ "BTC"
        ⟨"cross", 3, 2⟩ [] [("BTC", 1)] 0).prices = [] :=
  C5_missing_price_skips ⟨fun _ => none, fun k => (k : Int), 1⟩ "BTC"
    ⟨"cross", 3, 2⟩ [] [("BTC", 1)] 0 (by decide) (by decide)
    (fun q hq => by exact absurd hq (by simp))

/-- C6: the disappearance sweep on a snapshot entry with `prev ≠ 0` whose
symbol is absent from the fetched positions emits one full close
(`close_long` for `prev > 0`, `close_short` for `prev < 0`) with notional
`|prev| * price`, `delta_size = -prev`, `pos_before = prev`,
`pos_after = 0`, `leverage = 0` and empty margin mode when a price
resolves, and in either case deletes the snapshot entry (emitting nothing
when no price resolves). -/
theorem C6_disappearance_close (c : CycleCtx)
    (positions : List (String × PosMeta)) (sym : String) (prev : ℚ)
    (prices : SMap) (k : Nat)
    (habs : hasKey positions sym = false) (hprev : prev ≠ 0) :
    (0 < (resolvePrice c.mkt prices (convertHyperliquidSymbol sym)).1 →
      sweepSymbol c (hasKey positions sym) sym prev prices k =
        ⟨false, (resolvePrice c.mkt prices (convertHyperliquidSymbol sym)).2,
          k + 1,
          [{ symbol := convertHyperliquidSymbol sym,
             action := if prev < 0 then .closeShort else .closeLong,
             notionalUSD := |prev| *
               (resolvePrice c.mkt prices (convertHyperliquidSymbol sym)).1,
             price := (resolvePrice c.mkt prices (convertHyperliquidSymbol sym)).1,
             leaderEquity := c.accountValue, leaderLeverage := 0,
             marginMode := "", timestamp := c.clock k,
             deltaSize := -prev, leaderPosBefore := prev,
             leaderPosAfter := 0 }]⟩) ∧
    ((resolvePrice c.mkt prices (convertHyperliquidSymbol sym)).1 ≤ 0 →
      sweepSymbol c (hasKey positions sym) sym prev prices k =
        ⟨false, (resolvePrice c.mkt prices (convertHyperliquidSymbol sym)).2,
          k, []⟩) := by
  rw [habs]
  unfold sweepSymbol
  constructor
  · intro hp
    rw [if_neg (by simp), if_neg hprev, if_neg (not_le.mpr hp)]
  · intro hp
    rw [if_neg (by simp), if_neg hprev, if_pos hp]

/-- Witness for C6: a vanished short position (prev = −2, cached price 3)
produces one `close_short` for notional 6 and the entry is dropped. -/
theorem C6_disappearance_close_witness :
    sweepSymbol ⟨fun _ => none, fun k => (k : Int), 1⟩
        (hasKey [("BTC", ⟨"cross", 3, 2⟩)] "ETH") "ETH" (-2)
        [("ETHUSDT", 3)] 0 =
      ⟨false, [("ETHUSDT", 3)], 1,
        [{ symbol := "ETHUSDT", action := .closeShort, notionalUSD := 6,
           price := 3, leaderEquity := 1, leaderLeverage := 0,
           marginMode := "", timestamp := 0, deltaSize := 2,
           leaderPosBefore := -2, leaderPosAfter := 0 }]⟩ := by
  rw [(C6_disappearance_close ⟨fun _ => none, fun k => (k : Int), 1⟩
    [("BTC", ⟨"cross", 3, 2⟩)] "ETH" (-2) [("ETHUSDT", 3)] 0
    (by decide) (by decide)).1 (by decide)]
  with_unfolding_all rfl

/-- C7: a poll cycle fetching a non-positive leader account equity aborts
with the equity-invalid error before any signal is emitted and without
mutating any observer state (fill cursor, price cache and position
snapshot all unchanged). -/
theorem C7_equity_abort (m : String → Option ℚ) (c : Nat → Int)
    (fills : List Fill) (st : HState) (p : ProviderState)
    (h : st.accountValue ≤ 0) :
    fetchAndEmit m c fills st p = ⟨p, [], some .equityInvalid⟩ := by
  unfold fetchAndEmit
  rw [if_pos h]

/-- Witness for C7 at a concrete cycle with zero equity. -/
theorem C7_equity_abort_witness :
    fetchAndEmit (fun _ => none) (fun k => (k : Int)) []
        ⟨0, [("BTC", ⟨"cross", 3, 2⟩)]⟩
        ⟨7, true, [("BTC", 1)], [("BTCUSDT", 5)]⟩ =
      ⟨⟨7, true, [("BTC", 1)], [("BTCUSDT", 5)]⟩, [], some .equityInvalid⟩ :=
  C7_equity_abort (fun _ => none) (fun k => (k : Int)) []
    ⟨0, [("BTC", ⟨"cross", 3, 2⟩)]⟩
    ⟨7, true, [("BTC", 1)], [("BTCUSDT", 5)]⟩ (by norm_num)

/-- C8: normalization clamps negative `min_amount`/`max_amount` to 0,
resets `follow_ratio ≤ 0` to 100, re-enables all three follow flags when
all are false, and leaves every other field unchanged. -/
theorem C8_normalize_fields (cfg : CopyTradingConfig) :
    normalizeCopyTradingConfig cfg =
      { followOpen := if ¬cfg.followOpen ∧ ¬cfg.followAdd ∧ ¬cfg.followReduce
          then true else cfg.followOpen,
        followAdd := if ¬cfg.followOpen ∧ ¬cfg.followAdd ∧ ¬cfg.followReduce
          then true else cfg.followAdd,
        followReduce := if ¬cfg.followOpen ∧ ¬cfg.followAdd ∧ ¬cfg.followReduce
          then true else cfg.followReduce,
        followRatio := if cfg.followRatio ≤ 0 then 100 else cfg.followRatio,
        minAmount := if cfg.minAmount < 0 then 0 else cfg.minAmount,
        maxAmount := if cfg.maxAmount < 0 then 0 else cfg.maxAmount,
        syncLeverage := cfg.syncLeverage,
        syncMarginMode := cfg.syncMarginMode } := by
  obtain ⟨fo, fa, fr, ratio, mn, mx, sl, sm⟩ := cfg
  unfold normalizeCopyTradingConfig DefaultCopyTradingConfig
  by_cases h1 : ratio ≤ 0 <;> by_cases h2 : mx < 0 <;> by_cases h3 : mn < 0 <;>
    cases fo <;> cases fa <;> cases fr <;> simp [h1, h2, h3]

/-- C10: a blank input or one on which the JSON decode fails yields the
default configuration (all follow and sync flags true, ratio 100, zero
min/max amounts) rather than an error. -/
theorem C10_parse_blank_or_invalid
    (u : String → Option CopyTradingConfig) (raw : String)
    (h : trimSpaceGo raw = "" ∨ u raw = none) :
    ParseCopyTradingConfig u raw = DefaultCopyTradingConfig ∧
    DefaultCopyTradingConfig =
      { followOpen := true, followAdd := true, followReduce := true,
        followRatio := 100, minAmount := 0, maxAmount := 0,
        syncLeverage := true, syncMarginMode := true } := by
  refine ⟨?_, rfl⟩
  unfold ParseCopyTradingConfig
  by_cases hb : trimSpaceGo raw = ""
  · rw [if_pos hb]
  · rcases h with h | h
    · exact absurd h hb
    · rw [if_neg hb, h]

/-- Witness for C10 on the whitespace-only input with a failing decoder. -/
theorem C10_parse_blank_or_invalid_witness :
    ParseCopyTradingConfig (fun _ => none) "  " = DefaultCopyTradingConfig ∧
    DefaultCopyTradingConfig =
      { followOpen := true, followAdd := true, followReduce := true,
        followRatio := 100, minAmount := 0, maxAmount := 0,
        syncLeverage := true, syncMarginMode := true } :=
  C10_parse_blank_or_invalid (fun _ => none) "  " (Or.inl (by decide))

/-- C9: `NewProvider` fails with `unsupported signal source type` exactly
when the configured type is outside the supported set; for a supported
type it returns a provider whose poll interval defaults to 3 seconds when
the configured one is non-positive and whose HTTP client defaults to a
10-second-timeout client when none is given. -/
theorem C9_factory (cfg : ProviderConfig) :
    (NewProvider cfg = .error "unsupported signal source type" ↔
      cfg.type ∉ ["hyperliquid_wallet", "hyperliquid", "okx_wallet", "okx"]) ∧
    (cfg.type ∈ ["hyperliquid_wallet", "hyperliquid", "okx_wallet", "okx"] →
      ∃ p, NewProvider cfg = .ok p ∧
        providerInterval p =
          (if cfg.pollInterval ≤ 0 then 3 * second else cfg.pollInterval) ∧
        providerClient p =
          (match cfg.httpClient with
           | none => { timeout := 10 * second }
           | some c => c)) := by
  by_cases h1 : cfg.type = "hyperliquid_wallet" ∨ cfg.type = "hyperliquid"
  · constructor
    · simp only [NewProvider, if_pos h1]
      constructor
      · intro h
        exact absurd h (by simp)
      · intro h
        rcases h1 with h1 | h1 <;> simp [h1] at h
    · intro _
      refine ⟨newHyperliquidProvider cfg.identifier
          (if cfg.pollInterval ≤ 0 then 3 * second else cfg.pollInterval)
          (match cfg.httpClient with
           | none => { timeout := 10 * second }
           | some c => c), ?_, rfl, rfl⟩
      simp only [NewProvider, if_pos h1]
  · by_cases h2 : cfg.type = "okx_wallet" ∨ cfg.type = "okx"
    · constructor
      · simp only [NewProvider, if_neg h1, if_pos h2]
        constructor
        · intro h
          exact absurd h (by simp)
        · intro h
          rcases h2 with h2 | h2 <;> simp [h2] at h
      · intro _
        refine ⟨newOKXProvider cfg.identifier
            (if cfg.pollInterval ≤ 0 then 3 * second else cfg.pollInterval)
            (match cfg.httpClient with
             | none => { timeout := 10 * second }
             | some c => c), ?_, rfl, rfl⟩
        simp only [NewProvider, if_neg h1, if_pos h2]
    · constructor
      · simp only [NewProvider, if_neg h1, if_neg h2]
        constructor
        · intro _
          push_neg at h1 h2
          simp [h1.1, h1.2, h2.1, h2.2]
        · intro _
          trivial
      · intro h
        simp only [List.mem_cons, List.mem_singleton, List.not_mem_nil] at h
        rcases h with h | h | h | h | h
        · exact absurd (Or.inl h) h1
        · exact absurd (Or.inr h) h1
        · exact absurd (Or.inl h) h2
        · exact absurd (Or.inr h) h2
        · exact h.elim

/-- Witness for C9: an unsupported type fails, a supported one gets the
defaults applied. -/
theorem C9_factory_witness :
    (NewProvider ⟨"ai", "x", 0, none⟩ = .error "unsupported signal source type") ∧
    (NewProvider ⟨"hyperliquid", " 0xabc ", 0, none⟩ =
      .ok (.hyperliquid "0xabc" (3 * second) ⟨10 * second⟩)) := by
  constructor
  · exact ((C9_factory ⟨"ai", "x", 0, none⟩).1).mpr (by decide)
  · with_unfolding_all rfl

end Nofx
